import Mathlib

/-!
Verification of the shared/weak/intrusive smart-pointer library.

The embedding translates src/shared.h, src/weak.h and src/intrusive.h.
Counters are size_t, modelled as Nat with arithmetic taken modulo 2^64
wherever the increment/decrement can overflow.  Teardown of the
payload (the virtual OnZeroReferences hook) and release of the control
block itself (delete this) are instrumented as event counters so that
"fires exactly once" properties become statements about those counters.
Heap-allocated control blocks live in a list indexed by allocation order;
raw payload pointers are abstract addresses (Option Nat, none = nullptr).
-/

set_option maxHeartbeats 1000000

namespace SmartPtr

/-- Width of the 64-bit size_t counters used by the source. -/
def W : Nat := 2 ^ 64

/-- Model of ControlBlockBase (src/shared.h lines 9-48): the strong counter
ref_count_ (initialised to 1), the weak counter weak_count_ (initialised
to 0), plus instrumentation: teardownCount counts invocations of the
OnZeroReferences hook and freeCount counts executions of delete this. -/
structure ControlBlock where
  ref_count : Nat
  weak_count : Nat
  teardownCount : Nat
  freeCount : Nat
deriving DecidableEq

/-- GetCount (src/shared.h lines 13-15): returns ref_count_. -/
def ControlBlock.GetCount (b : ControlBlock) : Nat := b.ref_count

/-- IncrementStrong (src/shared.h lines 17-19): ++ref_count_. -/
def ControlBlock.IncrementStrong (b : ControlBlock) : ControlBlock :=
  { b with ref_count := (b.ref_count + 1) % W }

/-- DecrementStrong (src/shared.h lines 21-28): --ref_count_; when the new
value is 0, run OnZeroReferences, then delete this if weak_count_ == 0. -/
def ControlBlock.DecrementStrong (b : ControlBlock) : ControlBlock :=
  if (b.ref_count + W - 1) % W = 0 then
    if b.weak_count = 0 then
      { b with ref_count := (b.ref_count + W - 1) % W,
               teardownCount := b.teardownCount + 1,
               freeCount := b.freeCount + 1 }
    else
      { b with ref_count := (b.ref_count + W - 1) % W,
               teardownCount := b.teardownCount + 1 }
  else
    { b with ref_count := (b.ref_count + W - 1) % W }

/-- IncrementWeak (src/shared.h lines 30-32): ++weak_count_. -/
def ControlBlock.IncrementWeak (b : ControlBlock) : ControlBlock :=
  { b with weak_count := (b.weak_count + 1) % W }

/-- DecrementWeak (src/shared.h lines 34-38): --weak_count_; delete this
when the new weak count is 0 and ref_count_ == 0. -/
def ControlBlock.DecrementWeak (b : ControlBlock) : ControlBlock :=
  if (b.weak_count + W - 1) % W = 0 ∧ b.ref_count = 0 then
    { b with weak_count := (b.weak_count + W - 1) % W,
             freeCount := b.freeCount + 1 }
  else
    { b with weak_count := (b.weak_count + W - 1) % W }

/-- A freshly built control block: ref_count_ = 1, weak_count_ = 0, no
teardown and no release has happened yet (src/shared.h lines 46-47). -/
def initBlock : ControlBlock := ⟨1, 0, 0, 0⟩

/-- The heap of control blocks; a block pointer is its index in
allocation order. -/
structure Heap where
  blocks : List ControlBlock
deriving DecidableEq

/-- Dereference a control-block pointer.  An index outside the heap reads
as an all-zero block (such states never arise from valid handles). -/
def getBlock (h : Heap) (i : Nat) : ControlBlock := h.blocks.getD i ⟨0, 0, 0, 0⟩

/-- Write back a control block through its pointer. -/
def setBlock (h : Heap) (i : Nat) (b : ControlBlock) : Heap := ⟨h.blocks.set i b⟩

/-- Allocate a new control block, returning its pointer. -/
def allocBlock (h : Heap) (b : ControlBlock) : Heap × Nat :=
  (⟨h.blocks ++ [b]⟩, h.blocks.length)

/-- SharedPtr (src/shared.h lines 86-260): a payload pointer data_ptr_
and a control-block pointer control_block_, both nullable. -/
structure SharedPtr where
  data_ptr : Option Nat
  control_block : Option Nat
deriving DecidableEq

/-- WeakPtr (src/weak.h lines 7-130): observe_data_ptr_ and observe_cb_. -/
structure WeakPtr where
  observe_data_ptr : Option Nat
  observe_cb : Option Nat
deriving DecidableEq

/-- BadWeakPtr (src/sw_fwd.h): the payload-expired error thrown by the
promoting constructor. -/
inductive BadWeakPtr where
  | mk
deriving DecidableEq

/-- SharedPtr(T* ptr) and SharedPtr(Y* ptr) (src/shared.h lines 108-113):
unconditionally allocate a PtrControlBlock (ref 1, weak 0) around ptr,
even when ptr is null. -/
def SharedPtr.fromRaw (h : Heap) (ptr : Option Nat) : Heap × SharedPtr :=
  let p := allocBlock h initBlock
  (p.1, ⟨ptr, some p.2⟩)

/-- Get (src/shared.h lines 241-243). -/
def SharedPtr.Get (sp : SharedPtr) : Option Nat := sp.data_ptr

/-- operator bool (src/shared.h lines 257-259): data_ptr_ != nullptr. -/
def SharedPtr.toBool (sp : SharedPtr) : Bool := sp.data_ptr != none

/-- UseCount (src/shared.h lines 253-255). -/
def SharedPtr.UseCount (h : Heap) (sp : SharedPtr) : Nat :=
  match sp.control_block with
  | some i => (getBlock h i).GetCount
  | none => 0

/-- operator== on SharedPtr (src/shared.h lines 262-265):
left.Get() == right.Get(). -/
def spEq (a b : SharedPtr) : Bool := a.Get == b.Get

/-- Reset() (src/shared.h lines 207-214): decrement the strong count of the current block if a block is held, then null out both members. -/
def SharedPtr.Reset (h : Heap) (sp : SharedPtr) : Heap × SharedPtr :=
  let h1 := match sp.control_block with
    | some i => setBlock h i ((getBlock h i).DecrementStrong)
    | none => h
  (h1, ⟨none, none⟩)

/-- Reset(Y* ptr) (src/shared.h lines 216-233): early return when
data_ptr_ == ptr; otherwise decrement the current block if any, then
either attach a fresh PtrControlBlock around a non-null ptr or empty
the handle. -/
def SharedPtr.ResetPtr (h : Heap) (sp : SharedPtr) (ptr : Option Nat) :
    Heap × SharedPtr :=
  if sp.data_ptr = ptr then (h, sp)
  else
    let h1 := match sp.control_block with
      | some i => setBlock h i ((getBlock h i).DecrementStrong)
      | none => h
    match ptr with
    | some p =>
      let q := allocBlock h1 initBlock
      (q.1, ⟨some p, some q.2⟩)
    | none => (h1, ⟨none, none⟩)

/-- Move construction (src/shared.h lines 130-141): steal the pair,
empty the source, touch no counter (the heap is not even consulted). -/
def SharedPtr.moveCtor (src : SharedPtr) : SharedPtr × SharedPtr :=
  (⟨src.data_ptr, src.control_block⟩, ⟨none, none⟩)

/-- Move assignment between two distinct handles (src/shared.h lines
181-196): decrement the current block of the destination if any, steal the
pair, empty the source.  The self-assignment branch of the source
(&other == this) returns both handles unchanged and is the identity. -/
def SharedPtr.moveAssign (h : Heap) (dst src : SharedPtr) :
    Heap × SharedPtr × SharedPtr :=
  let h1 := match dst.control_block with
    | some i => setBlock h i ((getBlock h i).DecrementStrong)
    | none => h
  (h1, ⟨src.data_ptr, src.control_block⟩, ⟨none, none⟩)

/-- WeakPtr(const SharedPtr&) (src/weak.h lines 44-49): copy the pair,
increment the weak count when a block is held. -/
def WeakPtr.fromShared (h : Heap) (sp : SharedPtr) : Heap × WeakPtr :=
  match sp.control_block with
  | some i => (setBlock h i ((getBlock h i).IncrementWeak), ⟨sp.data_ptr, some i⟩)
  | none => (h, ⟨sp.data_ptr, none⟩)

/-- WeakPtr::UseCount (src/weak.h lines 114-116). -/
def WeakPtr.UseCount (h : Heap) (w : WeakPtr) : Nat :=
  match w.observe_cb with
  | some i => (getBlock h i).GetCount
  | none => 0

/-- WeakPtr::Expired (src/weak.h lines 118-120): UseCount() == 0. -/
def WeakPtr.Expired (h : Heap) (w : WeakPtr) : Bool := WeakPtr.UseCount h w == 0

/-- WeakPtr::Lock (src/weak.h lines 122-129): when a block is observed and
its strong count is positive, increment it and return a populated handle;
otherwise return a default-constructed (empty) handle. -/
def WeakPtr.Lock (h : Heap) (w : WeakPtr) : Heap × SharedPtr :=
  match w.observe_cb with
  | some i =>
    if 0 < (getBlock h i).GetCount then
      (setBlock h i ((getBlock h i).IncrementStrong), ⟨w.observe_data_ptr, some i⟩)
    else (h, ⟨none, none⟩)
  | none => (h, ⟨none, none⟩)

/-- SharedPtr(const WeakPtr&) (src/weak.h lines 132-139): throw BadWeakPtr
when no block is observed or its strong count is 0; otherwise increment
the strong count and return the populated handle. -/
def SharedPtr.fromWeak (h : Heap) (w : WeakPtr) :
    Except BadWeakPtr (Heap × SharedPtr) :=
  match w.observe_cb with
  | some i =>
    if (getBlock h i).GetCount = 0 then Except.error BadWeakPtr.mk
    else Except.ok
      (setBlock h i ((getBlock h i).IncrementStrong), ⟨w.observe_data_ptr, some i⟩)
  | none => Except.error BadWeakPtr.mk

/-- SimpleCounter (src/intrusive.h lines 4-23): count_ starts at 0. -/
structure SimpleCounter where
  count : Nat
deriving DecidableEq

/-- SimpleCounter::IncRef: returns ++count_ together with the new state. -/
def SimpleCounter.IncRef (c : SimpleCounter) : Nat × SimpleCounter :=
  ((c.count + 1) % W, ⟨(c.count + 1) % W⟩)

/-- SimpleCounter::DecRef: when count_ > 0 returns --count_, otherwise
leaves the counter at 0 and returns 0. -/
def SimpleCounter.DecRef (c : SimpleCounter) : Nat × SimpleCounter :=
  if 0 < c.count then (c.count - 1, ⟨c.count - 1⟩) else (0, c)

/-- SimpleCounter::RefCount. -/
def SimpleCounter.RefCount (c : SimpleCounter) : Nat := c.count

/-- RefCounted (src/intrusive.h lines 32-55): the embedded counter plus
instrumentation counting invocations of Deleter::Destroy. -/
structure RefCounted where
  counter : SimpleCounter
  destroyCount : Nat
deriving DecidableEq

/-- RefCounted::IncRef: counter_.IncRef(). -/
def RefCounted.IncRef (r : RefCounted) : RefCounted :=
  { r with counter := (r.counter.IncRef).2 }

/-- RefCounted::DecRef: Destroy the object when counter_.DecRef() == 0. -/
def RefCounted.DecRef (r : RefCounted) : RefCounted :=
  let p := r.counter.DecRef
  if p.1 = 0 then ⟨p.2, r.destroyCount + 1⟩ else ⟨p.2, r.destroyCount⟩

/-- RefCounted::RefCount: counter_.RefCount(). -/
def RefCounted.RefCount (r : RefCounted) : Nat := r.counter.RefCount

/-- A default-constructed SimpleCounter: count_ = 0. -/
def initSimpleCounter : SimpleCounter := ⟨0⟩

/-- A default-constructed RefCounted object: counter 0, never destroyed. -/
def initRefCounted : RefCounted := ⟨initSimpleCounter, 0⟩

/-- Increment/decrement alphabet shared by the intrusive counter and the
strong side of the control block. -/
inductive CtrOp where
  | inc
  | dec
deriving DecidableEq

/-- Run a sequence of IncRef/DecRef calls on a RefCounted object. -/
def runRC (r : RefCounted) : List CtrOp → RefCounted
  | [] => r
  | CtrOp.inc :: ops => runRC r.IncRef ops
  | CtrOp.dec :: ops => runRC r.DecRef ops

/-- One strong-side control-block operation. -/
def strongStep (b : ControlBlock) : CtrOp → ControlBlock
  | CtrOp.inc => b.IncrementStrong
  | CtrOp.dec => b.DecrementStrong

/-- Run a sequence of IncrementStrong/DecrementStrong calls on a block. -/
def runCB (b : ControlBlock) : List CtrOp → ControlBlock
  | [] => b
  | op :: ops => runCB (strongStep b op) ops

/-- A counter-op sequence is valid from count n when every decrement finds
a positive count (handles never decrement a counter they did not raise). -/
def validFrom : Nat → List CtrOp → Bool
  | _, [] => true
  | n, CtrOp.inc :: ops => validFrom ((n + 1) % W) ops
  | n, CtrOp.dec :: ops => decide (0 < n) && validFrom (n - 1) ops

/-- One observable operation of the handle layer acting on a single shared
control block (the alphabet of claims C1 and C2).  copyShared also covers
the increment half of copy-assignment and the aliasing constructor; dropShared
covers the destructor, Reset, and the decrement half of assignment; lockWeak
covers WeakPtr::Lock and the successful promoting constructor. -/
inductive Op where
  | copyShared
  | moveShared
  | dropShared
  | demoteToWeak
  | copyWeak
  | moveWeak
  | dropWeak
  | lockWeak
deriving DecidableEq

/-- State of one control block together with the number of live
SharedPtr handles (strongHolders) and WeakPtr handles (weakHolders)
currently referencing it. -/
structure SysState where
  block : ControlBlock
  strongHolders : Nat
  weakHolders : Nat
deriving DecidableEq

/-- State right after SharedPtr(T*) or MakeShared built the block: one
strong handle, block counters (1, 0). -/
def initState : SysState := ⟨initBlock, 1, 0⟩

/-- Small-step semantics of the handle layer over one block.  Each
operation is enabled only when a handle of the required kind exists;
the block mutation is exactly the counter call the source makes. -/
def step (s : SysState) : Op → Option SysState
  | Op.copyShared =>
    if 0 < s.strongHolders then
      some ⟨s.block.IncrementStrong, s.strongHolders + 1, s.weakHolders⟩
    else none
  | Op.moveShared => if 0 < s.strongHolders then some s else none
  | Op.dropShared =>
    if 0 < s.strongHolders then
      some ⟨s.block.DecrementStrong, s.strongHolders - 1, s.weakHolders⟩
    else none
  | Op.demoteToWeak =>
    if 0 < s.strongHolders then
      some ⟨s.block.IncrementWeak, s.strongHolders, s.weakHolders + 1⟩
    else none
  | Op.copyWeak =>
    if 0 < s.weakHolders then
      some ⟨s.block.IncrementWeak, s.strongHolders, s.weakHolders + 1⟩
    else none
  | Op.moveWeak => if 0 < s.weakHolders then some s else none
  | Op.dropWeak =>
    if 0 < s.weakHolders then
      some ⟨s.block.DecrementWeak, s.strongHolders, s.weakHolders - 1⟩
    else none
  | Op.lockWeak =>
    if 0 < s.weakHolders then
      if 0 < s.block.GetCount then
        some ⟨s.block.IncrementStrong, s.strongHolders + 1, s.weakHolders⟩
      else some s
    else none

/-- Run a sequence of handle operations; none marks an unreachable trace
(an operation fired without a handle able to perform it). -/
def run (s : SysState) : List Op → Option SysState
  | [] => some s
  | op :: ops =>
    match step s op with
    | some s1 => run s1 ops
    | none => none

/-- The lifecycle invariant: the counters mirror the live handles, the
teardown hook has run exactly once as soon as the strong side died, and
the block memory is released exactly once as soon as both sides died. -/
def Inv (s : SysState) : Prop :=
  s.block.ref_count = s.strongHolders ∧
  s.block.weak_count = s.weakHolders ∧
  s.block.teardownCount = (if s.strongHolders = 0 then 1 else 0) ∧
  s.block.freeCount = (if s.strongHolders = 0 ∧ s.weakHolders = 0 then 1 else 0)

/-- 64-bit decrement of a positive in-range counter is ordinary minus one. -/
theorem decModW (n : Nat) (h0 : 0 < n) (hW : n < W) : (n + W - 1) % W = n - 1 := by
  have h1 : n + W - 1 = (n - 1) + W := by omega
  rw [h1, Nat.add_mod_right, Nat.mod_eq_of_lt (by omega)]

/-- 64-bit increment below the modulus is ordinary plus one. -/
theorem incModW (n : Nat) (h : n + 1 < W) : (n + 1) % W = n + 1 :=
  Nat.mod_eq_of_lt h

theorem two_lt_W : 2 < W := by norm_num [W]

/-- Every enabled handle operation preserves the lifecycle invariant, and
grows each holder population by at most one. -/
theorem step_inv (s t : SysState) (op : Op) (hI : Inv s)
    (hsb : s.strongHolders + 1 < W) (hwb : s.weakHolders + 1 < W)
    (hst : step s op = some t) :
    Inv t ∧ t.strongHolders ≤ s.strongHolders + 1 ∧
      t.weakHolders ≤ s.weakHolders + 1 := by
  obtain ⟨h1, h2, h3, h4⟩ := hI
  cases op
  case copyShared =>
    simp only [step] at hst
    split at hst
    case isTrue hpos =>
      simp only [Option.some.injEq] at hst
      subst hst
      rw [if_neg (show ¬s.strongHolders = 0 by omega)] at h3
      rw [if_neg (show ¬(s.strongHolders = 0 ∧ s.weakHolders = 0) by omega)] at h4
      have hr : (s.block.ref_count + 1) % W = s.strongHolders + 1 := by
        rw [h1]; exact incModW _ hsb
      refine ⟨⟨?_, ?_, ?_, ?_⟩, ?_, ?_⟩
      · show (s.block.IncrementStrong).ref_count = s.strongHolders + 1
        simp only [ControlBlock.IncrementStrong, hr]
      · show (s.block.IncrementStrong).weak_count = s.weakHolders
        simp only [ControlBlock.IncrementStrong]
        exact h2
      · show (s.block.IncrementStrong).teardownCount =
          if s.strongHolders + 1 = 0 then 1 else 0
        simp only [ControlBlock.IncrementStrong]
        rw [if_neg (show ¬s.strongHolders + 1 = 0 by omega)]
        omega
      · show (s.block.IncrementStrong).freeCount =
          if s.strongHolders + 1 = 0 ∧ s.weakHolders = 0 then 1 else 0
        simp only [ControlBlock.IncrementStrong]
        rw [if_neg (show ¬(s.strongHolders + 1 = 0 ∧ s.weakHolders = 0) by omega)]
        omega
      · show s.strongHolders + 1 ≤ s.strongHolders + 1
        omega
      · show s.weakHolders ≤ s.weakHolders + 1
        omega
    case isFalse => simp at hst
  case moveShared =>
    simp only [step] at hst
    split at hst
    case isTrue hpos =>
      simp only [Option.some.injEq] at hst
      subst hst
      exact ⟨⟨h1, h2, h3, h4⟩, by omega, by omega⟩
    case isFalse => simp at hst
  case dropShared =>
    simp only [step] at hst
    split at hst
    case isTrue hpos =>
      simp only [Option.some.injEq] at hst
      subst hst
      rw [if_neg (show ¬s.strongHolders = 0 by omega)] at h3
      rw [if_neg (show ¬(s.strongHolders = 0 ∧ s.weakHolders = 0) by omega)] at h4
      have hr : (s.block.ref_count + W - 1) % W = s.strongHolders - 1 := by
        rw [h1]; exact decModW _ hpos (by omega)
      refine ⟨⟨?_, ?_, ?_, ?_⟩, ?_, ?_⟩
      · show (s.block.DecrementStrong).ref_count = s.strongHolders - 1
        simp only [ControlBlock.DecrementStrong, hr]
        split_ifs <;> rfl
      · show (s.block.DecrementStrong).weak_count = s.weakHolders
        simp only [ControlBlock.DecrementStrong, hr]
        split_ifs <;> exact h2
      · show (s.block.DecrementStrong).teardownCount =
          if s.strongHolders - 1 = 0 then 1 else 0
        simp only [ControlBlock.DecrementStrong, hr]
        split_ifs <;> dsimp only <;> omega
      · show (s.block.DecrementStrong).freeCount =
          if s.strongHolders - 1 = 0 ∧ s.weakHolders = 0 then 1 else 0
        simp only [ControlBlock.DecrementStrong, hr, h2]
        split_ifs <;> dsimp only <;> omega
      · show s.strongHolders - 1 ≤ s.strongHolders + 1
        omega
      · show s.weakHolders ≤ s.weakHolders + 1
        omega
    case isFalse => simp at hst
  case demoteToWeak =>
    simp only [step] at hst
    split at hst
    case isTrue hpos =>
      simp only [Option.some.injEq] at hst
      subst hst
      rw [if_neg (show ¬(s.strongHolders = 0 ∧ s.weakHolders = 0) by omega)] at h4
      have hr : (s.block.weak_count + 1) % W = s.weakHolders + 1 := by
        rw [h2]; exact incModW _ hwb
      refine ⟨⟨?_, ?_, ?_, ?_⟩, ?_, ?_⟩
      · show (s.block.IncrementWeak).ref_count = s.strongHolders
        simp only [ControlBlock.IncrementWeak]
        exact h1
      · show (s.block.IncrementWeak).weak_count = s.weakHolders + 1
        simp only [ControlBlock.IncrementWeak, hr]
      · show (s.block.IncrementWeak).teardownCount =
          if s.strongHolders = 0 then 1 else 0
        simp only [ControlBlock.IncrementWeak]
        exact h3
      · show (s.block.IncrementWeak).freeCount =
          if s.strongHolders = 0 ∧ s.weakHolders + 1 = 0 then 1 else 0
        simp only [ControlBlock.IncrementWeak]
        rw [if_neg (show ¬(s.strongHolders = 0 ∧ s.weakHolders + 1 = 0) by omega)]
        omega
      · show s.strongHolders ≤ s.strongHolders + 1
        omega
      · show s.weakHolders + 1 ≤ s.weakHolders + 1
        omega
    case isFalse => simp at hst
  case copyWeak =>
    simp only [step] at hst
    split at hst
    case isTrue hpos =>
      simp only [Option.some.injEq] at hst
      subst hst
      rw [if_neg (show ¬(s.strongHolders = 0 ∧ s.weakHolders = 0) by omega)] at h4
      have hr : (s.block.weak_count + 1) % W = s.weakHolders + 1 := by
        rw [h2]; exact incModW _ hwb
      refine ⟨⟨?_, ?_, ?_, ?_⟩, ?_, ?_⟩
      · show (s.block.IncrementWeak).ref_count = s.strongHolders
        simp only [ControlBlock.IncrementWeak]
        exact h1
      · show (s.block.IncrementWeak).weak_count = s.weakHolders + 1
        simp only [ControlBlock.IncrementWeak, hr]
      · show (s.block.IncrementWeak).teardownCount =
          if s.strongHolders = 0 then 1 else 0
        simp only [ControlBlock.IncrementWeak]
        exact h3
      · show (s.block.IncrementWeak).freeCount =
          if s.strongHolders = 0 ∧ s.weakHolders + 1 = 0 then 1 else 0
        simp only [ControlBlock.IncrementWeak]
        rw [if_neg (show ¬(s.strongHolders = 0 ∧ s.weakHolders + 1 = 0) by omega)]
        omega
      · show s.strongHolders ≤ s.strongHolders + 1
        omega
      · show s.weakHolders + 1 ≤ s.weakHolders + 1
        omega
    case isFalse => simp at hst
  case moveWeak =>
    simp only [step] at hst
    split at hst
    case isTrue hpos =>
      simp only [Option.some.injEq] at hst
      subst hst
      exact ⟨⟨h1, h2, h3, h4⟩, by omega, by omega⟩
    case isFalse => simp at hst
  case dropWeak =>
    simp only [step] at hst
    split at hst
    case isTrue hpos =>
      simp only [Option.some.injEq] at hst
      subst hst
      rw [if_neg (show ¬(s.strongHolders = 0 ∧ s.weakHolders = 0) by omega)] at h4
      have hr : (s.block.weak_count + W - 1) % W = s.weakHolders - 1 := by
        rw [h2]; exact decModW _ hpos (by omega)
      refine ⟨⟨?_, ?_, ?_, ?_⟩, ?_, ?_⟩
      · show (s.block.DecrementWeak).ref_count = s.strongHolders
        simp only [ControlBlock.DecrementWeak, hr]
        split_ifs <;> exact h1
      · show (s.block.DecrementWeak).weak_count = s.weakHolders - 1
        simp only [ControlBlock.DecrementWeak, hr]
        split_ifs <;> rfl
      · show (s.block.DecrementWeak).teardownCount =
          if s.strongHolders = 0 then 1 else 0
        rw [← h3]
        simp only [ControlBlock.DecrementWeak, hr]
        split_ifs <;> rfl
      · show (s.block.DecrementWeak).freeCount =
          if s.strongHolders = 0 ∧ s.weakHolders - 1 = 0 then 1 else 0
        simp only [ControlBlock.DecrementWeak, hr, h1]
        split_ifs <;> dsimp only <;> omega
      · show s.strongHolders ≤ s.strongHolders + 1
        omega
      · show s.weakHolders - 1 ≤ s.weakHolders + 1
        omega
    case isFalse => simp at hst
  case lockWeak =>
    simp only [step, ControlBlock.GetCount] at hst
    split at hst
    case isTrue hposw =>
      split at hst
      case isTrue hposs =>
        simp only [Option.some.injEq] at hst
        subst hst
        have hpos : 0 < s.strongHolders := by omega
        rw [if_neg (show ¬s.strongHolders = 0 by omega)] at h3
        rw [if_neg (show ¬(s.strongHolders = 0 ∧ s.weakHolders = 0) by omega)] at h4
        have hr : (s.block.ref_count + 1) % W = s.strongHolders + 1 := by
          rw [h1]; exact incModW _ hsb
        refine ⟨⟨?_, ?_, ?_, ?_⟩, ?_, ?_⟩
        · show (s.block.IncrementStrong).ref_count = s.strongHolders + 1
          simp only [ControlBlock.IncrementStrong, hr]
        · show (s.block.IncrementStrong).weak_count = s.weakHolders
          simp only [ControlBlock.IncrementStrong]
          exact h2
        · show (s.block.IncrementStrong).teardownCount =
            if s.strongHolders + 1 = 0 then 1 else 0
          simp only [ControlBlock.IncrementStrong]
          rw [if_neg (show ¬s.strongHolders + 1 = 0 by omega)]
          omega
        · show (s.block.IncrementStrong).freeCount =
            if s.strongHolders + 1 = 0 ∧ s.weakHolders = 0 then 1 else 0
          simp only [ControlBlock.IncrementStrong]
          rw [if_neg (show ¬(s.strongHolders + 1 = 0 ∧ s.weakHolders = 0) by omega)]
          omega
        · show s.strongHolders + 1 ≤ s.strongHolders + 1
          omega
        · show s.weakHolders ≤ s.weakHolders + 1
          omega
      case isFalse =>
        simp only [Option.some.injEq] at hst
        subst hst
        exact ⟨⟨h1, h2, h3, h4⟩, by omega, by omega⟩
    case isFalse => simp at hst

/-- Running any enabled trace preserves the invariant; holder populations
grow by at most the trace length. -/
theorem run_inv (ops : List Op) (s s2 : SysState) (hI : Inv s)
    (hsb : s.strongHolders + ops.length < W)
    (hwb : s.weakHolders + ops.length < W)
    (hrun : run s ops = some s2) :
    Inv s2 ∧ s2.strongHolders ≤ s.strongHolders + ops.length ∧
      s2.weakHolders ≤ s.weakHolders + ops.length := by
  induction ops generalizing s with
  | nil =>
    simp only [run, Option.some.injEq] at hrun
    subst hrun
    exact ⟨hI, by omega, by omega⟩
  | cons op ops ih =>
    simp only [run] at hrun
    simp only [List.length_cons] at hsb hwb
    cases hstep : step s op with
    | none => rw [hstep] at hrun; simp at hrun
    | some s1 =>
      rw [hstep] at hrun
      obtain ⟨hI1, hs1, hw1⟩ :=
        step_inv s s1 op hI (by omega) (by omega) hstep
      obtain ⟨hI2, hs2, hw2⟩ := ih s1 hI1 (by omega) (by omega) hrun
      refine ⟨hI2, ?_, ?_⟩ <;> simp only [List.length_cons] <;> omega

/-- The teardown hook fires at a step exactly when that step is the
strong decrement taking the strong count from 1 to 0. -/
theorem step_teardown (s t : SysState) (op : Op)
    (h1 : s.block.ref_count = s.strongHolders)
    (hsb : s.strongHolders + 1 < W)
    (hst : step s op = some t) :
    t.block.teardownCount = s.block.teardownCount + 1 ↔
      (s.block.ref_count = 1 ∧ t.block.ref_count = 0) := by
  cases op <;> simp only [step, ControlBlock.GetCount] at hst
  case copyShared =>
    split at hst
    case isTrue hpos =>
      simp only [Option.some.injEq] at hst
      subst hst
      simp only [ControlBlock.IncrementStrong, h1, incModW _ hsb]
      omega
    case isFalse => simp at hst
  case moveShared =>
    split at hst
    case isTrue hpos =>
      simp only [Option.some.injEq] at hst
      subst hst
      omega
    case isFalse => simp at hst
  case dropShared =>
    split at hst
    case isTrue hpos =>
      simp only [Option.some.injEq] at hst
      subst hst
      simp only [ControlBlock.DecrementStrong, h1, decModW _ hpos (by omega)]
      split_ifs <;> dsimp only <;> omega
    case isFalse => simp at hst
  case demoteToWeak =>
    split at hst
    case isTrue hpos =>
      simp only [Option.some.injEq] at hst
      subst hst
      simp only [ControlBlock.IncrementWeak]
      omega
    case isFalse => simp at hst
  case copyWeak =>
    split at hst
    case isTrue hpos =>
      simp only [Option.some.injEq] at hst
      subst hst
      simp only [ControlBlock.IncrementWeak]
      omega
    case isFalse => simp at hst
  case moveWeak =>
    split at hst
    case isTrue hpos =>
      simp only [Option.some.injEq] at hst
      subst hst
      omega
    case isFalse => simp at hst
  case dropWeak =>
    split at hst
    case isTrue hpos =>
      simp only [Option.some.injEq] at hst
      subst hst
      simp only [ControlBlock.DecrementWeak]
      split_ifs <;> dsimp only <;> omega
    case isFalse => simp at hst
  case lockWeak =>
    split at hst
    case isTrue hposw =>
      split at hst
      case isTrue hposs =>
        simp only [Option.some.injEq] at hst
        subst hst
        have hpos : 0 < s.strongHolders := by omega
        simp only [ControlBlock.IncrementStrong, h1, incModW _ hsb]
        omega
      case isFalse =>
        simp only [Option.some.injEq] at hst
        subst hst
        omega
    case isFalse => simp at hst

/-- The own memory of the block is released at a step exactly when that step
leaves both counters at 0 while they were not both 0 before it. -/
theorem step_free (s t : SysState) (op : Op)
    (h1 : s.block.ref_count = s.strongHolders)
    (h2 : s.block.weak_count = s.weakHolders)
    (hsb : s.strongHolders + 1 < W) (hwb : s.weakHolders + 1 < W)
    (hst : step s op = some t) :
    t.block.freeCount = s.block.freeCount + 1 ↔
      (t.block.ref_count = 0 ∧ t.block.weak_count = 0 ∧
        ¬(s.block.ref_count = 0 ∧ s.block.weak_count = 0)) := by
  cases op <;> simp only [step, ControlBlock.GetCount] at hst
  case copyShared =>
    split at hst
    case isTrue hpos =>
      simp only [Option.some.injEq] at hst
      subst hst
      simp only [ControlBlock.IncrementStrong, h1, incModW _ hsb]
      omega
    case isFalse => simp at hst
  case moveShared =>
    split at hst
    case isTrue hpos =>
      simp only [Option.some.injEq] at hst
      subst hst
      omega
    case isFalse => simp at hst
  case dropShared =>
    split at hst
    case isTrue hpos =>
      simp only [Option.some.injEq] at hst
      subst hst
      simp only [ControlBlock.DecrementStrong, h1, decModW _ hpos (by omega)]
      split_ifs <;> dsimp only <;> omega
    case isFalse => simp at hst
  case demoteToWeak =>
    split at hst
    case isTrue hpos =>
      simp only [Option.some.injEq] at hst
      subst hst
      simp only [ControlBlock.IncrementWeak, h2, incModW _ hwb]
      omega
    case isFalse => simp at hst
  case copyWeak =>
    split at hst
    case isTrue hpos =>
      simp only [Option.some.injEq] at hst
      subst hst
      simp only [ControlBlock.IncrementWeak, h2, incModW _ hwb]
      omega
    case isFalse => simp at hst
  case moveWeak =>
    split at hst
    case isTrue hpos =>
      simp only [Option.some.injEq] at hst
      subst hst
      omega
    case isFalse => simp at hst
  case dropWeak =>
    split at hst
    case isTrue hpos =>
      simp only [Option.some.injEq] at hst
      subst hst
      simp only [ControlBlock.DecrementWeak, h2, decModW _ hpos (by omega)]
      split_ifs <;> dsimp only <;> omega
    case isFalse => simp at hst
  case lockWeak =>
    split at hst
    case isTrue hposw =>
      split at hst
      case isTrue hposs =>
        simp only [Option.some.injEq] at hst
        subst hst
        have hpos : 0 < s.strongHolders := by omega
        simp only [ControlBlock.IncrementStrong, h1, incModW _ hsb]
        omega
      case isFalse =>
        simp only [Option.some.injEq] at hst
        subst hst
        omega
    case isFalse => simp at hst

/-- The initial handle state satisfies the lifecycle invariant. -/
theorem initState_inv : Inv initState := by
  refine ⟨rfl, rfl, ?_, ?_⟩ <;> simp [initState, initBlock, Inv]

/-- Claim C1: for every sequence of handle operations acting on handles
sharing one control block (construction, copy, move, reset, destruction,
demotion and promotion included), the payload teardown hook has run at
most once; it has run exactly once precisely when the strong count has
reached 0, never while the strong count is positive; and one further
enabled step invokes the hook exactly when it is the strong decrement
whose result takes the strong count from 1 to 0. -/
theorem C1_teardown_exactly_once (ops : List Op) (s2 : SysState)
    (hlen : ops.length + 2 < W) (hrun : run initState ops = some s2) :
    s2.block.teardownCount ≤ 1 ∧
    (s2.block.teardownCount = 1 ↔ s2.block.ref_count = 0) ∧
    (0 < s2.block.ref_count → s2.block.teardownCount = 0) ∧
    ∀ op t, step s2 op = some t →
      (t.block.teardownCount = s2.block.teardownCount + 1 ↔
        (s2.block.ref_count = 1 ∧ t.block.ref_count = 0)) := by
  obtain ⟨hI, hs, hw⟩ :=
    run_inv ops initState s2 initState_inv
      (by simp only [initState]; omega) (by simp only [initState]; omega) hrun
  obtain ⟨h1, h2, h3, h4⟩ := hI
  simp only [initState] at hs hw
  have hsb : s2.strongHolders + 1 < W := by omega
  refine ⟨?_, ?_, ?_, ?_⟩
  · by_cases hc : s2.strongHolders = 0
    · rw [if_pos hc] at h3; omega
    · rw [if_neg hc] at h3; omega
  · by_cases hc : s2.strongHolders = 0
    · rw [if_pos hc] at h3; omega
    · rw [if_neg hc] at h3; omega
  · by_cases hc : s2.strongHolders = 0
    · rw [if_pos hc] at h3; omega
    · rw [if_neg hc] at h3; omega
  · intro op t hst
    exact step_teardown s2 t op h1 hsb hst

/-- Witness for C1: one copy then nothing; the teardown count of the
reached state is 0 because the strong count is still positive. -/
theorem C1_teardown_exactly_once_witness :
    ([Op.copyShared].length + 2 < W) ∧
    (⟨⟨2, 0, 0, 0⟩, 2, 0⟩ : SysState).block.teardownCount = 0 := by
  refine ⟨by decide, ?_⟩
  have h :=
    C1_teardown_exactly_once [Op.copyShared] ⟨⟨2, 0, 0, 0⟩, 2, 0⟩
      (by decide) (by decide)
  exact h.2.2.1 (by decide)

/-- Claim C2: for every sequence mixing shared and weak handle operations
over one control block, the memory of the block has been released at most
once; exactly once precisely when both counters are 0; a further enabled
step releases it exactly when that step is the decrement that last brings
both counters to 0 (whichever counter reaches 0 last); and DecrementWeak
releases the block exactly when the new weak count is 0 and the strong
count is 0. -/
theorem C2_block_released_exactly_once (ops : List Op) (s2 : SysState)
    (hlen : ops.length + 2 < W) (hrun : run initState ops = some s2) :
    s2.block.freeCount ≤ 1 ∧
    (s2.block.freeCount = 1 ↔
      (s2.block.ref_count = 0 ∧ s2.block.weak_count = 0)) ∧
    (∀ op t, step s2 op = some t →
      (t.block.freeCount = s2.block.freeCount + 1 ↔
        (t.block.ref_count = 0 ∧ t.block.weak_count = 0 ∧
          ¬(s2.block.ref_count = 0 ∧ s2.block.weak_count = 0)))) ∧
    ∀ b : ControlBlock, 0 < b.weak_count → b.weak_count < W →
      ((b.DecrementWeak).freeCount = b.freeCount + 1 ↔
        ((b.DecrementWeak).weak_count = 0 ∧ b.ref_count = 0)) := by
  obtain ⟨hI, hs, hw⟩ :=
    run_inv ops initState s2 initState_inv
      (by simp only [initState]; omega) (by simp only [initState]; omega) hrun
  obtain ⟨h1, h2, h3, h4⟩ := hI
  simp only [initState] at hs hw
  have hsb : s2.strongHolders + 1 < W := by omega
  have hwb : s2.weakHolders + 1 < W := by omega
  refine ⟨?_, ?_, ?_, ?_⟩
  · by_cases hc : s2.strongHolders = 0 ∧ s2.weakHolders = 0
    · rw [if_pos hc] at h4; omega
    · rw [if_neg hc] at h4; omega
  · by_cases hc : s2.strongHolders = 0 ∧ s2.weakHolders = 0
    · rw [if_pos hc] at h4
      obtain ⟨hc1, hc2⟩ := hc
      omega
    · rw [if_neg hc] at h4
      constructor
      · intro hfree; omega
      · intro hcnt
        exfalso
        exact hc ⟨by omega, by omega⟩
  · intro op t hst
    exact step_free s2 t op h1 h2 hsb hwb hst
  · intro b hb0 hbW
    simp only [ControlBlock.DecrementWeak, decModW _ hb0 hbW]
    split_ifs <;> dsimp only <;> omega

/-- Witness for C2: demote, drop the only strong handle (teardown, no
release because a weak handle remains), then drop the weak handle: the
release fires at that last step, once. -/
theorem C2_block_released_exactly_once_witness :
    ([Op.demoteToWeak, Op.dropShared, Op.dropWeak].length + 2 < W) ∧
    (⟨⟨0, 0, 1, 1⟩, 0, 0⟩ : SysState).block.freeCount = 1 := by
  refine ⟨by decide, ?_⟩
  have h :=
    C2_block_released_exactly_once [Op.demoteToWeak, Op.dropShared, Op.dropWeak]
      ⟨⟨0, 0, 1, 1⟩, 0, 0⟩ (by decide) (by decide)
  exact h.2.1.mpr ⟨rfl, rfl⟩

/-- Reading the slot a fresh allocation returned yields the fresh block. -/
theorem getD_append_len {α : Type} (l : List α) (b d : α) :
    (l ++ [b]).getD l.length d = b := by
  induction l with
  | nil => rfl
  | cons x xs ih =>
    simp only [List.cons_append, List.length_cons, List.getD_cons_succ]
    exact ih

/-- Writing a slot then reading it back yields the written block. -/
theorem getD_set_self {α : Type} (l : List α) (i : Nat) (b d : α)
    (hi : i < l.length) : (l.set i b).getD i d = b := by
  induction l generalizing i with
  | nil => simp at hi
  | cons x xs ih =>
    cases i with
    | zero => rfl
    | succ n =>
      simp only [List.set_cons_succ, List.getD_cons_succ]
      exact ih n (by simpa using hi)

/-- Writing one slot leaves every other slot unchanged. -/
theorem getD_set_other {α : Type} (l : List α) (i j : Nat) (b d : α)
    (hij : i ≠ j) : (l.set i b).getD j d = l.getD j d := by
  induction l generalizing i j with
  | nil => rfl
  | cons x xs ih =>
    cases i with
    | zero =>
      cases j with
      | zero => exact absurd rfl hij
      | succ m => rfl
    | succ n =>
      cases j with
      | zero => rfl
      | succ m =>
        simp only [List.set_cons_succ, List.getD_cons_succ]
        exact ih n m (by omega)

/-- Reading past the end of the heap yields the default block. -/
theorem getD_len_le {α : Type} (l : List α) (i : Nat) (d : α)
    (hi : l.length ≤ i) : l.getD i d = d := by
  induction l generalizing i with
  | nil => rfl
  | cons x xs ih =>
    cases i with
    | zero => simp at hi
    | succ n =>
      simp only [List.getD_cons_succ]
      exact ih n (by simpa using hi)

/-- Claim C7: operator== on SharedPtr returns true exactly when the two
payload pointers coincide, and its verdict is entirely independent of
which control blocks the two handles reference. -/
theorem C7_equality_payload_only (a b : SharedPtr) :
    (spEq a b = true ↔ a.Get = b.Get) ∧
    ∀ cb1 cb2 : Option Nat,
      spEq ⟨a.data_ptr, cb1⟩ ⟨b.data_ptr, cb2⟩ = spEq a b := by
  constructor
  · simp [spEq]
  · intro cb1 cb2
    rfl

/-- Claim C9: SharedPtr(T* ptr) with ptr null still allocates a control
block with strong count 1: the handle tests false under operator bool
while UseCount reports 1, not 0. -/
theorem C9_null_raw_pointer_counts (h : Heap) :
    ((SharedPtr.fromRaw h none).2).toBool = false ∧
    SharedPtr.UseCount (SharedPtr.fromRaw h none).1
      (SharedPtr.fromRaw h none).2 = 1 := by
  constructor
  · rfl
  · show (getBlock ⟨h.blocks ++ [initBlock]⟩ h.blocks.length).GetCount = 1
    rw [getBlock, getD_append_len]
    rfl

/-- Claim C10: a strong decrement on a block whose strong count is
already 0 wraps the counter modulo 2^64 to the maximum unsigned value
and triggers neither the teardown hook nor the block release; a weak
decrement with weak count already 0 likewise wraps and does not release
the block. -/
theorem C10_decrement_at_zero_wraps (b c : ControlBlock)
    (hb : b.ref_count = 0) (hc : c.weak_count = 0) :
    (b.DecrementStrong).ref_count = W - 1 ∧
    (b.DecrementStrong).teardownCount = b.teardownCount ∧
    (b.DecrementStrong).freeCount = b.freeCount ∧
    (b.DecrementStrong).weak_count = b.weak_count ∧
    (c.DecrementWeak).weak_count = W - 1 ∧
    (c.DecrementWeak).freeCount = c.freeCount ∧
    (c.DecrementWeak).ref_count = c.ref_count ∧
    (c.DecrementWeak).teardownCount = c.teardownCount := by
  have h2W := two_lt_W
  have hmod : (0 + W - 1) % W = W - 1 := by
    have he : 0 + W - 1 = W - 1 := by omega
    rw [he, Nat.mod_eq_of_lt (by omega)]
  have hs : b.DecrementStrong = { b with ref_count := W - 1 } := by
    simp only [ControlBlock.DecrementStrong, hb, hmod]
    rw [if_neg (show ¬W - 1 = 0 by omega)]
  have hw : c.DecrementWeak = { c with weak_count := W - 1 } := by
    simp only [ControlBlock.DecrementWeak, hc, hmod]
    rw [if_neg (show ¬(W - 1 = 0 ∧ c.ref_count = 0) from fun hx => by omega)]
  rw [hs, hw]
  exact ⟨rfl, rfl, rfl, rfl, rfl, rfl, rfl, rfl⟩

/-- Witness for C10 at concrete blocks: strong count 0 with some weak
holders, and weak count 0 with some strong holders. -/
theorem C10_decrement_at_zero_wraps_witness :
    ((⟨0, 5, 1, 0⟩ : ControlBlock).DecrementStrong).ref_count = W - 1 ∧
    ((⟨3, 0, 0, 0⟩ : ControlBlock).DecrementWeak).weak_count = W - 1 := by
  have h := C10_decrement_at_zero_wraps ⟨0, 5, 1, 0⟩ ⟨3, 0, 0, 0⟩ rfl rfl
  exact ⟨h.1, h.2.2.2.2.1⟩

/-- A slot below the old length is untouched by an allocation. -/
theorem getD_append_left {α : Type} (l l2 : List α) (i : Nat) (d : α)
    (hi : i < l.length) : (l ++ l2).getD i d = l.getD i d := by
  induction l generalizing i with
  | nil => simp at hi
  | cons x xs ih =>
    cases i with
    | zero => rfl
    | succ n =>
      simp only [List.cons_append, List.getD_cons_succ]
      exact ih n (by simpa using hi)

/-- Field-level description of one strong decrement. -/
theorem DecrementStrong_spec (b : ControlBlock) :
    b.DecrementStrong =
      ⟨(b.ref_count + W - 1) % W, b.weak_count,
        (if (b.ref_count + W - 1) % W = 0 then b.teardownCount + 1
          else b.teardownCount),
        (if (b.ref_count + W - 1) % W = 0 ∧ b.weak_count = 0 then b.freeCount + 1
          else b.freeCount)⟩ := by
  simp only [ControlBlock.DecrementStrong]
  split_ifs <;> first | rfl | (exfalso; omega)

/-- Claim C3: Lock returns an empty handle whenever no block is observed
or the observed strong count is 0; whenever the strong count is positive
it returns a handle populated with the observed payload pointer and the
same block, leaving the strong count exactly one higher; and the
promoting constructor succeeds under exactly the same condition,
raising BadWeakPtr otherwise. -/
theorem C3_lock_and_promotion :
    (∀ (h : Heap) (w : WeakPtr), w.observe_cb = none →
      WeakPtr.Lock h w = (h, ⟨none, none⟩)) ∧
    (∀ (h : Heap) (w : WeakPtr) (i : Nat), w.observe_cb = some i →
      (getBlock h i).ref_count = 0 →
      WeakPtr.Lock h w = (h, ⟨none, none⟩)) ∧
    (∀ (h : Heap) (w : WeakPtr) (i : Nat), w.observe_cb = some i →
      0 < (getBlock h i).ref_count → (getBlock h i).ref_count + 1 < W →
      (WeakPtr.Lock h w).2 = ⟨w.observe_data_ptr, some i⟩ ∧
      (getBlock (WeakPtr.Lock h w).1 i).ref_count =
        (getBlock h i).ref_count + 1) ∧
    (∀ (h : Heap) (w : WeakPtr) (i : Nat), w.observe_cb = some i →
      0 < (getBlock h i).ref_count →
      SharedPtr.fromWeak h w =
        Except.ok (setBlock h i ((getBlock h i).IncrementStrong),
          ⟨w.observe_data_ptr, some i⟩)) ∧
    (∀ (h : Heap) (w : WeakPtr),
      (w.observe_cb = none ∨ WeakPtr.UseCount h w = 0) →
      SharedPtr.fromWeak h w = Except.error BadWeakPtr.mk) := by
  refine ⟨?_, ?_, ?_, ?_, ?_⟩
  · intro h w hcb
    simp only [WeakPtr.Lock, hcb]
  · intro h w i hcb hzero
    simp only [WeakPtr.Lock, hcb, ControlBlock.GetCount]
    rw [if_neg (by omega)]
  · intro h w i hcb hpos hlt
    have hlen : i < h.blocks.length := by
      by_contra hge
      push_neg at hge
      rw [getBlock, getD_len_le _ _ _ hge] at hpos
      exact Nat.lt_irrefl 0 hpos
    constructor
    · simp only [WeakPtr.Lock, hcb, ControlBlock.GetCount]
      rw [if_pos hpos]
    · simp only [WeakPtr.Lock, hcb, ControlBlock.GetCount]
      rw [if_pos hpos]
      show (getBlock (setBlock h i ((getBlock h i).IncrementStrong)) i).ref_count =
        (getBlock h i).ref_count + 1
      rw [getBlock, setBlock, getD_set_self _ _ _ _ (by simpa using hlen)]
      show ((getBlock h i).ref_count + 1) % W = (getBlock h i).ref_count + 1
      exact incModW _ hlt
  · intro h w i hcb hpos
    simp only [SharedPtr.fromWeak, hcb, ControlBlock.GetCount]
    rw [if_neg (by omega)]
  · intro h w hfail
    rcases hfail with hnone | hzero
    · simp only [SharedPtr.fromWeak, hnone]
    · cases hcb : w.observe_cb with
      | none => simp only [SharedPtr.fromWeak, hcb]
      | some i =>
        simp only [WeakPtr.UseCount, hcb] at hzero
        simp only [SharedPtr.fromWeak, hcb]
        rw [if_pos hzero]

/-- Witness for C3 at a concrete heap: a live block (strong count 2)
locks successfully and bumps the count to 3; an absent block and an
expired block fail in their respective ways. -/
theorem C3_lock_and_promotion_witness :
    WeakPtr.Lock ⟨[⟨2, 0, 0, 0⟩]⟩ ⟨some 9, none⟩ =
      (⟨[⟨2, 0, 0, 0⟩]⟩, ⟨none, none⟩) ∧
    (WeakPtr.Lock ⟨[⟨2, 0, 0, 0⟩]⟩ ⟨some 9, some 0⟩).2 = ⟨some 9, some 0⟩ ∧
    (getBlock (WeakPtr.Lock ⟨[⟨2, 0, 0, 0⟩]⟩ ⟨some 9, some 0⟩).1 0).ref_count = 3 ∧
    SharedPtr.fromWeak ⟨[⟨0, 1, 1, 0⟩]⟩ ⟨some 9, some 0⟩ =
      Except.error BadWeakPtr.mk := by
  refine ⟨C3_lock_and_promotion.1 ⟨[⟨2, 0, 0, 0⟩]⟩ ⟨some 9, none⟩ rfl, ?_, ?_, ?_⟩
  · exact (C3_lock_and_promotion.2.2.1 ⟨[⟨2, 0, 0, 0⟩]⟩ ⟨some 9, some 0⟩ 0 rfl
      (by decide) (by decide)).1
  · exact (C3_lock_and_promotion.2.2.1 ⟨[⟨2, 0, 0, 0⟩]⟩ ⟨some 9, some 0⟩ 0 rfl
      (by decide) (by decide)).2
  · exact C3_lock_and_promotion.2.2.2.2 ⟨[⟨0, 1, 1, 0⟩]⟩ ⟨some 9, some 0⟩
      (Or.inr rfl)

/-- Claim C6: demote a SharedHandle to a WeakHandle, then Lock (possibly
after other operations, modelled by the arbitrary later heap h2): while
the strong count of the block is still positive, the Get of the locked
handle is the payload pointer of the original handle. -/
theorem C6_demote_lock_roundtrip (h h2 : Heap) (sp : SharedPtr) (i : Nat)
    (hcb : sp.control_block = some i)
    (hlive : 0 < (getBlock h2 i).ref_count) :
    ((WeakPtr.Lock h2 (WeakPtr.fromShared h sp).2).2).Get = sp.Get := by
  have hw : (WeakPtr.fromShared h sp).2 = ⟨sp.data_ptr, some i⟩ := by
    simp only [WeakPtr.fromShared, hcb]
  rw [hw]
  simp only [WeakPtr.Lock, ControlBlock.GetCount]
  rw [if_pos hlive]
  rfl

/-- Witness for C6: a handle over block 0 with payload address 7, locked
right after demotion. -/
theorem C6_demote_lock_roundtrip_witness :
    ((WeakPtr.Lock ⟨[⟨1, 1, 0, 0⟩]⟩
        (WeakPtr.fromShared ⟨[⟨1, 0, 0, 0⟩]⟩ ⟨some 7, some 0⟩).2).2).Get =
      some 7 :=
  C6_demote_lock_roundtrip ⟨[⟨1, 0, 0, 0⟩]⟩ ⟨[⟨1, 1, 0, 0⟩]⟩ ⟨some 7, some 0⟩ 0
    rfl (by decide)

/-- Counterexample to claim C4 as stated: calling Reset with the pointer
the handle already stores hits the early-return branch, so the held
strong count of the block (here 2) is not decremented and no fresh block is
allocated — the heap and the handle are returned unchanged. -/
theorem C4_reset_counterexample :
    SharedPtr.ResetPtr ⟨[⟨2, 0, 0, 0⟩]⟩ ⟨some 7, some 0⟩ (some 7) =
      (⟨[⟨2, 0, 0, 0⟩]⟩, ⟨some 7, some 0⟩) ∧
    (getBlock (SharedPtr.ResetPtr ⟨[⟨2, 0, 0, 0⟩]⟩ ⟨some 7, some 0⟩
        (some 7)).1 0).ref_count = 2 := by
  exact ⟨by decide, by decide⟩

/-- Claim C4 (amended): Reset() always decrements the strong count of the held
block (when a block is held) and empties the handle; Reset(newPtr) does
the same and, for non-null newPtr, attaches a freshly allocated
PointerControlBlock with strong count 1 around newPtr — whether or not
the handle previously held a block — except that when newPtr equals the
current payload pointer of the handle, Reset(newPtr) returns early and
is a no-op. -/
theorem C4_reset_behavior :
    (∀ (h : Heap) (sp : SharedPtr), sp.control_block = none →
      SharedPtr.Reset h sp = (h, ⟨none, none⟩)) ∧
    (∀ (h : Heap) (sp : SharedPtr) (i : Nat), sp.control_block = some i →
      0 < (getBlock h i).ref_count → (getBlock h i).ref_count < W →
      (SharedPtr.Reset h sp).2 = ⟨none, none⟩ ∧
      (getBlock (SharedPtr.Reset h sp).1 i).ref_count =
        (getBlock h i).ref_count - 1) ∧
    (∀ (h : Heap) (sp : SharedPtr) (ptr : Option Nat), sp.data_ptr = ptr →
      SharedPtr.ResetPtr h sp ptr = (h, sp)) ∧
    (∀ (h : Heap) (sp : SharedPtr) (i p : Nat), sp.data_ptr ≠ some p →
      sp.control_block = some i →
      0 < (getBlock h i).ref_count → (getBlock h i).ref_count < W →
      (SharedPtr.ResetPtr h sp (some p)).2 =
        ⟨some p, some h.blocks.length⟩ ∧
      getBlock (SharedPtr.ResetPtr h sp (some p)).1 h.blocks.length =
        initBlock ∧
      (getBlock (SharedPtr.ResetPtr h sp (some p)).1 i).ref_count =
        (getBlock h i).ref_count - 1) ∧
    (∀ (h : Heap) (sp : SharedPtr) (i : Nat), sp.data_ptr ≠ none →
      sp.control_block = some i →
      SharedPtr.ResetPtr h sp none =
        (setBlock h i ((getBlock h i).DecrementStrong), ⟨none, none⟩)) ∧
    (∀ (h : Heap) (sp : SharedPtr) (p : Nat), sp.data_ptr ≠ some p →
      sp.control_block = none →
      SharedPtr.ResetPtr h sp (some p) =
        (⟨h.blocks ++ [initBlock]⟩, ⟨some p, some h.blocks.length⟩)) := by
  refine ⟨?_, ?_, ?_, ?_, ?_, ?_⟩
  · intro h sp hcb
    simp only [SharedPtr.Reset, hcb]
  · intro h sp i hcb hpos hlt
    have hlen : i < h.blocks.length := by
      by_contra hge
      push_neg at hge
      rw [getBlock, getD_len_le _ _ _ hge] at hpos
      exact Nat.lt_irrefl 0 hpos
    have hR : SharedPtr.Reset h sp =
        (setBlock h i ((getBlock h i).DecrementStrong), ⟨none, none⟩) := by
      simp only [SharedPtr.Reset, hcb]
    rw [hR]
    refine ⟨rfl, ?_⟩
    show (getBlock (setBlock h i ((getBlock h i).DecrementStrong)) i).ref_count =
      (getBlock h i).ref_count - 1
    rw [getBlock, setBlock, getD_set_self _ _ _ _ (by simpa using hlen),
      DecrementStrong_spec]
    exact decModW _ hpos hlt
  · intro h sp ptr hdp
    simp only [SharedPtr.ResetPtr, hdp, if_true]
  · intro h sp i p hne hcb hpos hlt
    have hlen : i < h.blocks.length := by
      by_contra hge
      push_neg at hge
      rw [getBlock, getD_len_le _ _ _ hge] at hpos
      exact Nat.lt_irrefl 0 hpos
    have hr : SharedPtr.ResetPtr h sp (some p) =
        (⟨(h.blocks.set i ((getBlock h i).DecrementStrong)) ++ [initBlock]⟩,
          ⟨some p, some h.blocks.length⟩) := by
      simp only [SharedPtr.ResetPtr, hcb]
      rw [if_neg hne]
      simp only [allocBlock, setBlock, List.length_set]
    refine ⟨by rw [hr], ?_, ?_⟩
    · rw [hr]
      show (h.blocks.set i ((getBlock h i).DecrementStrong) ++
          [initBlock]).getD h.blocks.length ⟨0, 0, 0, 0⟩ = initBlock
      have hl : h.blocks.length =
          (h.blocks.set i ((getBlock h i).DecrementStrong)).length := by
        rw [List.length_set]
      rw [hl, getD_append_len]
    · rw [hr]
      show ((h.blocks.set i ((getBlock h i).DecrementStrong) ++
          [initBlock]).getD i ⟨0, 0, 0, 0⟩).ref_count =
        (getBlock h i).ref_count - 1
      rw [getD_append_left _ _ _ _ (by simpa using hlen),
        getD_set_self _ _ _ _ (by simpa using hlen), DecrementStrong_spec]
      exact decModW _ hpos hlt
  · intro h sp i hne hcb
    simp only [SharedPtr.ResetPtr, hcb]
    rw [if_neg hne]
  · intro h sp p hne hcb
    simp only [SharedPtr.ResetPtr, hcb]
    rw [if_neg hne]
    simp only [allocBlock]

/-- Witness for C4 (amended) at a concrete heap: Reset() drops the count
from 2 to 1; Reset(9) on a handle holding 7 drops the old block to 1 and
attaches a fresh block at the next slot; Reset(7) on the same handle is
the no-op the amendment describes; Reset(5) on a blockless empty handle
attaches a fresh block with strong count 1. -/
theorem C4_reset_behavior_witness :
    (SharedPtr.Reset ⟨[⟨2, 0, 0, 0⟩]⟩ ⟨some 7, some 0⟩).2 = ⟨none, none⟩ ∧
    (getBlock (SharedPtr.Reset ⟨[⟨2, 0, 0, 0⟩]⟩ ⟨some 7, some 0⟩).1 0).ref_count
      = 1 ∧
    (SharedPtr.ResetPtr ⟨[⟨2, 0, 0, 0⟩]⟩ ⟨some 7, some 0⟩ (some 9)).2 =
      ⟨some 9, some 1⟩ ∧
    getBlock (SharedPtr.ResetPtr ⟨[⟨2, 0, 0, 0⟩]⟩ ⟨some 7, some 0⟩
      (some 9)).1 1 = initBlock ∧
    SharedPtr.ResetPtr ⟨[⟨2, 0, 0, 0⟩]⟩ ⟨some 7, some 0⟩ (some 7) =
      (⟨[⟨2, 0, 0, 0⟩]⟩, ⟨some 7, some 0⟩) ∧
    SharedPtr.ResetPtr ⟨[]⟩ ⟨none, none⟩ (some 5) =
      (⟨[initBlock]⟩, ⟨some 5, some 0⟩) := by
  refine ⟨?_, ?_, ?_, ?_, ?_, ?_⟩
  · exact (C4_reset_behavior.2.1 ⟨[⟨2, 0, 0, 0⟩]⟩ ⟨some 7, some 0⟩ 0 rfl
      (by decide) (by decide)).1
  · exact (C4_reset_behavior.2.1 ⟨[⟨2, 0, 0, 0⟩]⟩ ⟨some 7, some 0⟩ 0 rfl
      (by decide) (by decide)).2
  · exact (C4_reset_behavior.2.2.2.1 ⟨[⟨2, 0, 0, 0⟩]⟩ ⟨some 7, some 0⟩ 0 9
      (by decide) rfl (by decide) (by decide)).1
  · exact (C4_reset_behavior.2.2.2.1 ⟨[⟨2, 0, 0, 0⟩]⟩ ⟨some 7, some 0⟩ 0 9
      (by decide) rfl (by decide) (by decide)).2.1
  · exact C4_reset_behavior.2.2.1 ⟨[⟨2, 0, 0, 0⟩]⟩ ⟨some 7, some 0⟩ (some 7) rfl
  · exact C4_reset_behavior.2.2.2.2.2 ⟨[]⟩ ⟨none, none⟩ 5 (by decide) rfl

/-- Counterexample to claim C8 as stated: move-assigning onto a handle
that owns a block changes the counters of that block — here the block of
the destination drops from strong count 1 to 0 (firing teardown and release). -/
theorem C8_move_counterexample :
    (getBlock (⟨[⟨1, 0, 0, 0⟩, ⟨1, 0, 0, 0⟩]⟩ : Heap) 0).ref_count = 1 ∧
    (getBlock (SharedPtr.moveAssign ⟨[⟨1, 0, 0, 0⟩, ⟨1, 0, 0, 0⟩]⟩
        ⟨some 1, some 0⟩ ⟨some 2, some 1⟩).1 0).ref_count = 0 := by
  exact ⟨by decide, by decide⟩

/-- Claim C8 (amended): move-construction transfers the (payload, block)
pair and empties the source without consulting the heap at all, so no
counter changes; move-assignment between distinct handles first
decrements the previously held block of the destination (possibly firing
teardown/release there), then transfers the pair and empties the source,
touching no other block — in particular the counters of the transferred block
are unchanged whenever the destination held no block or a different
block. -/
theorem C8_move_transfer :
    (∀ src : SharedPtr,
      SharedPtr.moveCtor src =
        (⟨src.data_ptr, src.control_block⟩, ⟨none, none⟩)) ∧
    (∀ (h : Heap) (dst src : SharedPtr), dst.control_block = none →
      SharedPtr.moveAssign h dst src =
        (h, ⟨src.data_ptr, src.control_block⟩, ⟨none, none⟩)) ∧
    (∀ (h : Heap) (dst src : SharedPtr) (i : Nat), dst.control_block = some i →
      (SharedPtr.moveAssign h dst src).2.1 =
        ⟨src.data_ptr, src.control_block⟩ ∧
      (SharedPtr.moveAssign h dst src).2.2 = ⟨none, none⟩ ∧
      (i < h.blocks.length →
        getBlock (SharedPtr.moveAssign h dst src).1 i =
          (getBlock h i).DecrementStrong) ∧
      ∀ j : Nat, j ≠ i →
        getBlock (SharedPtr.moveAssign h dst src).1 j = getBlock h j) := by
  refine ⟨?_, ?_, ?_⟩
  · intro src
    rfl
  · intro h dst src hcb
    simp only [SharedPtr.moveAssign, hcb]
  · intro h dst src i hcb
    have hM : SharedPtr.moveAssign h dst src =
        (setBlock h i ((getBlock h i).DecrementStrong),
          ⟨src.data_ptr, src.control_block⟩, ⟨none, none⟩) := by
      simp only [SharedPtr.moveAssign, hcb]
    rw [hM]
    refine ⟨rfl, rfl, ?_, ?_⟩
    · intro hlen
      show getBlock (setBlock h i ((getBlock h i).DecrementStrong)) i =
        (getBlock h i).DecrementStrong
      rw [getBlock, setBlock, getD_set_self _ _ _ _ (by simpa using hlen)]
    · intro j hji
      show getBlock (setBlock h i ((getBlock h i).DecrementStrong)) j =
        getBlock h j
      rw [getBlock, setBlock, getD_set_other _ _ _ _ _ (fun he => hji he.symm)]
      rfl

/-- Witness for C8 (amended): moving between handles over blocks 0 and 1;
block 1 of the source is untouched, block 0 of the destination is
decremented. -/
theorem C8_move_transfer_witness :
    SharedPtr.moveCtor ⟨some 2, some 1⟩ = (⟨some 2, some 1⟩, ⟨none, none⟩) ∧
    (SharedPtr.moveAssign ⟨[⟨1, 0, 0, 0⟩, ⟨1, 0, 0, 0⟩]⟩
        ⟨some 1, some 0⟩ ⟨some 2, some 1⟩).2.1 = ⟨some 2, some 1⟩ ∧
    getBlock (SharedPtr.moveAssign ⟨[⟨1, 0, 0, 0⟩, ⟨1, 0, 0, 0⟩]⟩
        ⟨some 1, some 0⟩ ⟨some 2, some 1⟩).1 1 =
      getBlock ⟨[⟨1, 0, 0, 0⟩, ⟨1, 0, 0, 0⟩]⟩ 1 := by
  refine ⟨C8_move_transfer.1 ⟨some 2, some 1⟩, ?_, ?_⟩
  · exact (C8_move_transfer.2.2 ⟨[⟨1, 0, 0, 0⟩, ⟨1, 0, 0, 0⟩]⟩
      ⟨some 1, some 0⟩ ⟨some 2, some 1⟩ 0 rfl).1
  · exact (C8_move_transfer.2.2 ⟨[⟨1, 0, 0, 0⟩, ⟨1, 0, 0, 0⟩]⟩
      ⟨some 1, some 0⟩ ⟨some 2, some 1⟩ 0 rfl).2.2.2 1 (by decide)

/-- Field-level description of RefCounted::DecRef at a positive count. -/
theorem RefCounted_DecRef_spec (r : RefCounted) (hpos : 0 < r.counter.count) :
    r.DecRef = ⟨⟨r.counter.count - 1⟩,
      if r.counter.count - 1 = 0 then r.destroyCount + 1
        else r.destroyCount⟩ := by
  simp only [RefCounted.DecRef, SimpleCounter.DecRef, if_pos hpos]
  split_ifs <;> rfl

/-- Validity is preserved by truncating the operation sequence. -/
theorem validFrom_take (ops : List CtrOp) (k n : Nat)
    (hv : validFrom n ops = true) : validFrom n (ops.take k) = true := by
  induction ops generalizing n k with
  | nil => simp only [List.take_nil]; rfl
  | cons op ops ih =>
    cases k with
    | zero => rfl
    | succ m =>
      cases op
      case inc =>
        simp only [List.take_succ_cons, validFrom] at hv ⊢
        exact ih m _ hv
      case dec =>
        simp only [List.take_succ_cons, validFrom, Bool.and_eq_true,
          decide_eq_true_eq] at hv ⊢
        exact ⟨hv.1, ih m _ hv.2⟩

/-- Simulation between the intrusive counter and the strong side of the
control block: when the counts agree and the destruction tallies agree,
any valid sequence of increments and decrements keeps them in lockstep. -/
theorem counterSim (ops : List CtrOp) (r : RefCounted) (b : ControlBlock)
    (hcnt : r.counter.count = b.ref_count)
    (hdes : r.destroyCount = b.teardownCount)
    (hlt : b.ref_count < W)
    (hv : validFrom b.ref_count ops = true) :
    (runRC r ops).counter.count = (runCB b ops).ref_count ∧
    (runRC r ops).destroyCount = (runCB b ops).teardownCount ∧
    (runCB b ops).ref_count < W := by
  induction ops generalizing r b with
  | nil => exact ⟨hcnt, hdes, hlt⟩
  | cons op ops ih =>
    cases op
    case inc =>
      simp only [validFrom] at hv
      simp only [runRC, runCB, strongStep]
      refine ih (r.IncRef) (b.IncrementStrong) ?_ ?_ ?_ ?_
      · show (r.counter.count + 1) % W = (b.ref_count + 1) % W
        rw [hcnt]
      · exact hdes
      · show (b.ref_count + 1) % W < W
        exact Nat.mod_lt _ (by have := two_lt_W; omega)
      · show validFrom ((b.ref_count + 1) % W) ops = true
        exact hv
    case dec =>
      simp only [validFrom, Bool.and_eq_true, decide_eq_true_eq] at hv
      obtain ⟨hpos, hv2⟩ := hv
      simp only [runRC, runCB, strongStep]
      have hrpos : 0 < r.counter.count := by omega
      refine ih (r.DecRef) (b.DecrementStrong) ?_ ?_ ?_ ?_
      · rw [RefCounted_DecRef_spec r hrpos, DecrementStrong_spec b]
        dsimp only
        rw [decModW _ hpos hlt, hcnt]
      · rw [RefCounted_DecRef_spec r hrpos, DecrementStrong_spec b]
        dsimp only
        rw [decModW _ hpos hlt, hcnt, hdes]
      · rw [DecrementStrong_spec b]
        dsimp only
        rw [decModW _ hpos hlt]
        omega
      · rw [DecrementStrong_spec b]
        dsimp only
        rw [decModW _ hpos hlt]
        exact hv2

/-- Counterexample to claim C5 as stated: from the respective initial
states the two counter values already differ on the empty sequence — a
default SimpleCounter inside a RefCounted reports 0 while a fresh
control block reports a strong count of 1. -/
theorem C5_initial_states_counterexample :
    (runRC initRefCounted []).RefCount = 0 ∧
    (runCB initBlock []).GetCount = 1 ∧
    (runRC initRefCounted []).RefCount ≠ (runCB initBlock []).GetCount := by
  exact ⟨rfl, rfl, by decide⟩

/-- Claim C5 (amended): aligned at the handle-attachment state — the
intrusive object after the initial IncRef performed by IntrusivePtr(T*),
i.e. counter 1, against a fresh control block at strong count 1 — every
increment/decrement sequence in which each decrement finds a positive
count drives the two counters through identical values and triggers
destruction (Deleter::Destroy, resp. the teardown hook) at the same
steps: after every prefix the counter values agree and the destruction
tallies agree. -/
theorem C5_intrusive_strong_subset (ops : List CtrOp)
    (hv : validFrom 1 ops = true) :
    ∀ k : Nat,
      (runRC (initRefCounted.IncRef) (ops.take k)).counter.count =
        (runCB initBlock (ops.take k)).ref_count ∧
      (runRC (initRefCounted.IncRef) (ops.take k)).destroyCount =
        (runCB initBlock (ops.take k)).teardownCount := by
  intro k
  have hvk : validFrom 1 (ops.take k) = true := validFrom_take ops k 1 hv
  have h1W : (1 : Nat) < W := by have := two_lt_W; omega
  have h := counterSim (ops.take k) (initRefCounted.IncRef) initBlock
    (by show (0 + 1) % W = 1; rw [Nat.mod_eq_of_lt h1W]) rfl h1W hvk
  exact ⟨h.1, h.2.1⟩

/-- Witness for C5 (amended): the single valid decrement from the aligned
state destroys on both sides at the same step. -/
theorem C5_intrusive_strong_subset_witness :
    validFrom 1 [CtrOp.dec] = true ∧
    (runRC (initRefCounted.IncRef) [CtrOp.dec]).counter.count =
      (runCB initBlock [CtrOp.dec]).ref_count ∧
    (runRC (initRefCounted.IncRef) [CtrOp.dec]).destroyCount =
      (runCB initBlock [CtrOp.dec]).teardownCount := by
  refine ⟨by decide, ?_, ?_⟩
  · exact (C5_intrusive_strong_subset [CtrOp.dec] (by decide) 1).1
  · exact (C5_intrusive_strong_subset [CtrOp.dec] (by decide) 1).2

end SmartPtr
